import Mathlib

/-!
Shallow embedding of `poismf/pgd.c` (Poisson factorization by alternating
proximal-gradient / conjugate-gradient iteration).

Modelling conventions:
* C `double` arrays are total maps `ℕ → ℚ`; pointer arithmetic `p + off`
  becomes `shift p off`.  Machine floating point is modelled by exact
  rational arithmetic.
* The BLAS fallback kernels (`cblas_ddot`, `cblas_daxpy`, `cblas_dscal`)
  are transcribed from the loop-based fallback in the source.
* The external minimizer `minimize_nonneg_cg` (from the separate
  `nonneg_cg` package, not part of this repository) is an abstract
  parameter of type `Solver`: it receives exactly the data the source
  hands it (the fixed factor matrix `F`, its column sums `Fsum`, the
  row's sparse values and indices, the nonzero count, `l2_reg`, the
  iteration cap `npass`, the dimension `k`, and the starting vector).
* OpenMP parallel row loops are modelled functionally: each row of the
  output is computed independently, which is exactly the disjoint-write
  semantics of the source's parallel-for.
* Division by zero in ℚ yields 0; separate `..._chk` variants of the
  gradient/objective kernels track the division/log domain errors with
  `Option`, mirroring the fact that the C code has no guard.
-/

namespace Poismf

/-- A flat C array of doubles, as a total map from offsets to rationals. -/
abbrev Arr := ℕ → ℚ

/-- Pointer arithmetic `p + off` on a value array. -/
def shift (p : Arr) (off : ℕ) : Arr := fun i => p (off + i)

/-- Pointer arithmetic `p + off` on an index array. -/
def shiftIdx (p : ℕ → ℕ) (off : ℕ) : ℕ → ℕ := fun i => p (off + i)

/-- The `cblas_ddot` fallback: `for i < n, out += x[i] * y[i]`. -/
def cblas_ddot : ℕ → Arr → Arr → ℚ
  | 0, _, _ => 0
  | n + 1, x, y => cblas_ddot n x y + x n * y n

/-- The `cblas_daxpy` fallback: `for i < n, y[i] += a * x[i]`. -/
def cblas_daxpy (n : ℕ) (a : ℚ) (x y : Arr) : Arr :=
  fun i => if i < n then y i + a * x i else y i

/-- The `cblas_dscal` fallback: `for i < n, x[i] *= alpha`. -/
def cblas_dscal (n : ℕ) (alpha : ℚ) (x : Arr) : Arr :=
  fun i => if i < n then x i * alpha else x i

/-- Embeds `memset(out, 0, sizeof(double) * n)`. -/
def memset0 (n : ℕ) (out : Arr) : Arr :=
  fun i => if i < n then 0 else out i

/-- The `nonneg` macro: `(x >= 0)? x : 0`. -/
def nonneg (x : ℚ) : ℚ := if x ≥ 0 then x else 0

/-- Row `ia` of a row-major `dim × k` matrix, i.e. the pointer `A + ia*k`. -/
def row (A : Arr) (ia k : ℕ) : Arr := shift A (ia * k)

/-- Inner body of `sum_by_cols`: add row `r` of `M` into `out`. -/
def addRowTo (M : Arr) (ncol r : ℕ) (out : Arr) : Arr :=
  fun col => if col < ncol then out col + M (r * ncol + col) else out col

/-- The row loop of `sum_by_cols`, rows `0 .. nrow-1`. -/
def sum_by_cols_loop (M : Arr) (ncol : ℕ) : ℕ → Arr → Arr
  | 0, out => out
  | r + 1, out => addRowTo M ncol r (sum_by_cols_loop M ncol r out)

/-- Embeds `sum_by_cols(out, M, nrow, ncol, ncores)`: zero the first `ncol`
entries of `out`, then accumulate every row of `M` column-wise.
`ncores` only affects OpenMP scheduling in the source, never the value. -/
def sum_by_cols (out M : Arr) (nrow ncol : ℕ) (ncores : ℕ) : Arr :=
  sum_by_cols_loop M ncol nrow (memset0 ncol out)

/-- The nonzero loop of `calc_grad_pgd`: `for i < nnz,
daxpy(k, X[i] / ddot(k, F + Xind[i]*k, curr), F + Xind[i]*k, out)`. -/
def calc_grad_pgd_loop (curr F X : Arr) (Xind : ℕ → ℕ) (k : ℕ) : ℕ → Arr → Arr
  | 0, out => out
  | i + 1, out =>
    cblas_daxpy k (X i / cblas_ddot k (shift F (Xind i * k)) curr)
      (shift F (Xind i * k)) (calc_grad_pgd_loop curr F X Xind k i out)

/-- Embeds `calc_grad_pgd(out, curr, F, X, Xind, nnz_this, k)`. -/
def calc_grad_pgd (out curr F X : Arr) (Xind : ℕ → ℕ) (nnz k : ℕ) : Arr :=
  calc_grad_pgd_loop curr F X Xind k nnz (memset0 k out)

/-- One pass of the `npass` loop of `pgd_iteration` on one row:
gradient into the scratch buffer, ascent step, additive constant,
rescale, clip to nonnegative. -/
def pgd_pass (buf F X : Arr) (Xind : ℕ → ℕ) (nnz k : ℕ)
    (cnst_div : ℚ) (cnst_sum : Arr) (step_size : ℚ) (curr : Arr) : Arr :=
  let grad := calc_grad_pgd buf curr F X Xind nnz k
  let c1 := cblas_daxpy k step_size grad curr
  let c2 := cblas_daxpy k 1 cnst_sum c1
  let c3 := cblas_dscal k cnst_div c2
  fun i => if i < k then nonneg (c3 i) else c3 i

/-- Embeds `pgd_iteration(A, B, Xr, Xr_indptr, Xr_indices, dimA, k, cnst_div,
cnst_sum, step_size, npass, ncores)`: every row `ia < dimA` of `A`
independently undergoes `npass` passes of `pgd_pass` against the data
slice `Xr + Xr_indptr[ia]`, `Xr_indices + Xr_indptr[ia]`. -/
def pgd_iteration (buf A F Xr : Arr) (Xr_indptr Xr_indices : ℕ → ℕ)
    (dimA k : ℕ) (cnst_div : ℚ) (cnst_sum : Arr) (step_size : ℚ)
    (npass : ℕ) (ncores : ℕ) : Arr :=
  fun j =>
    if j < dimA * k then
      let ia := j / k
      let nnz_this := Xr_indptr (ia + 1) - Xr_indptr ia
      (Nat.iterate
        (pgd_pass buf F (shift Xr (Xr_indptr ia)) (shiftIdx Xr_indices (Xr_indptr ia))
          nnz_this k cnst_div cnst_sum step_size)
        npass (row A ia k)) (j % k)
    else A j

/-- The abstract external minimizer `minimize_nonneg_cg` from the
`nonneg_cg` package (not part of this repository).  Arguments, in
order: the fixed matrix `F`, its column sums `Fsum`, the row's sparse
values `X` and indices `Xind`, the nonzero count, `l2_reg`, the
iteration cap, the dimension `k`, the starting vector.  These are
exactly the data `cg_iteration` passes the black-box routine. -/
abbrev Solver := Arr → Arr → Arr → (ℕ → ℕ) → ℕ → ℚ → ℕ → ℕ → Arr → Arr

/-- Embeds `cg_iteration(A, B, Xr, Xr_indptr, Xr_indices, dimA, k, Bsum,
npass, l2_reg, ncores)`: every row `ia < dimA` of `A` is handed to the
external minimizer with the data slice starting at `Xr_indptr[ia]`,
then clipped entrywise to nonnegative. -/
def cg_iteration (solver : Solver) (A F Xvals : Arr)
    (Xr_indptr Xr_indices : ℕ → ℕ) (dimA k : ℕ) (Fsum : Arr)
    (npass : ℕ) (l2_reg : ℚ) (ncores : ℕ) : Arr :=
  fun j =>
    if j < dimA * k then
      let ia := j / k
      let nnz_this := Xr_indptr (ia + 1) - Xr_indptr ia
      nonneg ((solver F Fsum (shift Xvals (Xr_indptr ia))
        (shiftIdx Xr_indices (Xr_indptr ia)) nnz_this l2_reg npass k
        (row A ia k)) (j % k))
    else A j

/-- The read-only inputs of `run_poismf`: both compressed views of the
sparse matrix `X`, the dimensions, the regularization scalars, the
solver selector, and the loop/threading counts. -/
structure PoisParams where
  Xr : Arr
  Xr_indptr : ℕ → ℕ
  Xr_indices : ℕ → ℕ
  Xc : Arr
  Xc_indptr : ℕ → ℕ
  Xc_indices : ℕ → ℕ
  dimA : ℕ
  dimB : ℕ
  k : ℕ
  l2_reg : ℚ
  l1_reg : ℚ
  use_cg : Bool
  npass : ℕ
  ncores : ℕ

/-- The mutable state of the outer loop of `run_poismf`: the two factor
matrices (flat, row-major) and the current PGD step size. -/
structure PoisState where
  A : Arr
  B : Arr
  step_size : ℚ

/-- Embeds `if (l1_reg > 0) for kk < k, cnst_sum[kk] += l1_reg`. -/
def add_l1 (l1_reg : ℚ) (k : ℕ) (v : Arr) : Arr :=
  if l1_reg > 0 then (fun kk => if kk < k then v kk + l1_reg else v kk) else v

/-- One outer iteration (`fulliter`) of `run_poismf`: the A half
against B, then the B half against the updated A.  Note the CG branch
of the B half passes `p.Xr` as the values array together with the
column view's pointer and index arrays, exactly as the source does. -/
def run_iter (solver : Solver) (p : PoisParams) (s : PoisState) : PoisState :=
  let cnst_div := 1 / (1 + 2 * p.l2_reg * s.step_size)
  let cnst_sumA := add_l1 p.l1_reg p.k (sum_by_cols (fun _ => 0) s.B p.dimB p.k p.ncores)
  if p.use_cg then
    let A1 := cg_iteration solver s.A s.B p.Xr p.Xr_indptr p.Xr_indices
      p.dimA p.k cnst_sumA p.npass p.l2_reg p.ncores
    let cnst_sumB := add_l1 p.l1_reg p.k (sum_by_cols (fun _ => 0) A1 p.dimA p.k p.ncores)
    let B1 := cg_iteration solver s.B A1 p.Xr p.Xc_indptr p.Xc_indices
      p.dimB p.k cnst_sumB p.npass p.l2_reg p.ncores
    ⟨A1, B1, s.step_size⟩
  else
    let A1 := pgd_iteration (fun _ => 0) s.A s.B p.Xr p.Xr_indptr p.Xr_indices
      p.dimA p.k cnst_div (cblas_dscal p.k (-s.step_size) cnst_sumA) s.step_size
      p.npass p.ncores
    let cnst_sumB := add_l1 p.l1_reg p.k (sum_by_cols (fun _ => 0) A1 p.dimA p.k p.ncores)
    let B1 := pgd_iteration (fun _ => 0) s.B A1 p.Xc p.Xc_indptr p.Xc_indices
      p.dimB p.k cnst_div (cblas_dscal p.k (-s.step_size) cnst_sumB) s.step_size
      p.npass p.ncores
    ⟨A1, B1, s.step_size * (1 / 2)⟩

/-- The body of `run_poismf` after successful allocation: `numiter` outer
iterations starting from the caller's matrices and step size. -/
def run_poismf (solver : Solver) (p : PoisParams) (A B : Arr)
    (step_size : ℚ) (numiter : ℕ) : PoisState :=
  Nat.iterate (run_iter solver p) numiter ⟨A, B, step_size⟩

/-- Observable outcome of a full `run_poismf` call including the
allocation prologue: final matrices, whether the diagnostic was
printed to stderr, and whether the two allocations were released.
The C function returns `void`, so no status field exists. -/
structure RunResult where
  A : Arr
  B : Arr
  err_printed : Bool
  freed_cnst_sum : Bool
  freed_buffers : Bool

/-- The whole of `run_poismf` with its allocation prologue: `cnst_sum_ok` models
`cnst_sum != NULL`, `buffer_alloc_error` models the shared flag set by
any worker whose scratch allocation failed.  On failure the code
prints the diagnostic and jumps to `cleanup`, which frees both
resources; on success the optimization runs and the same `cleanup`
frees both resources. -/
def run_poismf_alloc (solver : Solver) (p : PoisParams)
    (cnst_sum_ok buffer_alloc_error : Bool) (A B : Arr)
    (step_size : ℚ) (numiter : ℕ) : RunResult :=
  if buffer_alloc_error || !cnst_sum_ok then
    ⟨A, B, true, true, true⟩
  else
    let s := run_poismf solver p A B step_size numiter
    ⟨s.A, s.B, false, true, true⟩

/-! ### Spec-side formulations (written from the spec's words, for comparison) -/

/-- Dot product as a mathematical sum (the §4.1 contract of the spec). -/
def dotSpec (n : ℕ) (x y : Arr) : ℚ := ∑ i ∈ Finset.range n, x i * y i

/-- Column sums of a dense `nrow × k` row-major matrix (§4.2 contract). -/
def colsum (F : Arr) (nrow k : ℕ) : Arr :=
  fun i => ∑ r ∈ Finset.range nrow, F (r * k + i)

/-- Spec §4.3: the predicted value for entry `j`,
`pred_j = dot(curr, F index_j)`. -/
def predSpec (curr F : Arr) (Xind : ℕ → ℕ) (k j : ℕ) : ℚ :=
  dotSpec k curr (shift F (Xind j * k))

/-- Spec §4.3 gradient-only form: the sum over nonzeros of
`(x_j / pred_j) · F index_j`. -/
def gradSpec (curr F X : Arr) (Xind : ℕ → ℕ) (nnz k : ℕ) : Arr :=
  fun i => ∑ j ∈ Finset.range nnz, (X j / predSpec curr F Xind k j) * F (Xind j * k + i)

/-- Spec §4.4: one PGD pass exactly as the spec words it — ascent step
with the likelihood gradient, additive constant
`-step_size·(colsum F + l1_reg)`, rescale by
`1 / (1 + 2·l2_reg·step_size)`, clip to nonnegative. -/
def pgd_pass_spec (F X : Arr) (Xind : ℕ → ℕ) (nnz k : ℕ) (colsumF : Arr)
    (l1_reg l2_reg step_size : ℚ) (curr : Arr) : Arr :=
  fun i =>
    if i < k then
      max (((curr i + step_size * gradSpec curr F X Xind nnz k i)
            + -(step_size * (colsumF i + l1_reg)))
           * (1 / (1 + 2 * l2_reg * step_size))) 0
    else curr i

/-! ### CG objective/gradient kernels (`calc_fun_single`, `calc_grad_single`) -/

/-- The nonzero loop of `calc_fun_single`:
`for i < nnz, out -= X[i] * log(ddot(n, x, F + X_ind[i]*n))`.
The real-valued `log` of the C library is an abstract parameter. -/
def calc_fun_single_loop (log : ℚ → ℚ) (x F X : Arr) (Xind : ℕ → ℕ) (n : ℕ) :
    ℕ → ℚ → ℚ
  | 0, out => out
  | i + 1, out =>
    calc_fun_single_loop log x F X Xind n i out
      - X i * log (cblas_ddot n x (shift F (Xind i * n)))

/-- Embeds `calc_fun_single(x, n, f, data)`: the combined CG objective
`ddot(Fsum, x) + l2_reg * ddot(x, x)` minus the log-likelihood sum. -/
def calc_fun_single (log : ℚ → ℚ) (x : Arr) (n : ℕ) (F Fsum X : Arr)
    (Xind : ℕ → ℕ) (nnz : ℕ) (l2_reg : ℚ) : ℚ :=
  calc_fun_single_loop log x F X Xind n nnz
    (cblas_ddot n Fsum x + l2_reg * cblas_ddot n x x)

/-- The nonzero loop of `calc_grad_single`:
`for i < nnz, daxpy(n, -X[i] / ddot(n, x, F + X_ind[i]*n), F + X_ind[i]*n, grad)`. -/
def calc_grad_single_loop (x F X : Arr) (Xind : ℕ → ℕ) (n : ℕ) : ℕ → Arr → Arr
  | 0, grad => grad
  | i + 1, grad =>
    cblas_daxpy n (-(X i) / cblas_ddot n x (shift F (Xind i * n)))
      (shift F (Xind i * n)) (calc_grad_single_loop x F X Xind n i grad)

/-- Embeds `calc_grad_single(x, n, grad, data)`: `memcpy` of `Fsum`, then
`daxpy(n, 2 * n * l2_reg, x, grad)`, then the nonzero loop. -/
def calc_grad_single (x : Arr) (n : ℕ) (F Fsum X : Arr) (Xind : ℕ → ℕ)
    (nnz : ℕ) (l2_reg : ℚ) : Arr :=
  calc_grad_single_loop x F X Xind n nnz
    (cblas_daxpy n (2 * (n : ℚ) * l2_reg) x (fun i => if i < n then Fsum i else 0))

/-- Spec §4.3 combined gradient as the claim writes it, with the
factor `2·n·l2_reg` that the code applies to the L2 term. -/
def calc_grad_single_spec (x : Arr) (n : ℕ) (F Fsum X : Arr) (Xind : ℕ → ℕ)
    (nnz : ℕ) (l2_reg : ℚ) : Arr :=
  fun i =>
    Fsum i + 2 * (n : ℚ) * l2_reg * x i
      - ∑ j ∈ Finset.range nnz, (X j / dotSpec n x (shift F (Xind j * n))) * F (Xind j * n + i)

/-- The true gradient of the combined objective of `calc_fun_single`,
whose L2 term is `l2_reg·dot(x,x)`: its L2 contribution is
`2·l2_reg·x`, with no factor of `n`. -/
def true_objective_grad (x : Arr) (n : ℕ) (F Fsum X : Arr) (Xind : ℕ → ℕ)
    (nnz : ℕ) (l2_reg : ℚ) : Arr :=
  fun i =>
    Fsum i + 2 * l2_reg * x i
      - ∑ j ∈ Finset.range nnz, (X j / dotSpec n x (shift F (Xind j * n))) * F (Xind j * n + i)

/-! ### Checked (Option-valued) variants tracking division/log domain errors -/

/-- The loop of `calc_grad_pgd` with the division checked: `none` as soon
as some predicted value `ddot(k, F + Xind[i]*k, curr)` is zero.  The
source performs no such check. -/
def calc_grad_pgd_chk_loop (curr F X : Arr) (Xind : ℕ → ℕ) (k : ℕ) :
    ℕ → Arr → Option Arr
  | 0, out => some out
  | i + 1, out =>
    match calc_grad_pgd_chk_loop curr F X Xind k i out with
    | none => none
    | some g =>
      if cblas_ddot k (shift F (Xind i * k)) curr = 0 then none
      else
        some (cblas_daxpy k (X i / cblas_ddot k (shift F (Xind i * k)) curr)
          (shift F (Xind i * k)) g)

/-- Checked `calc_grad_pgd`. -/
def calc_grad_pgd_chk (out curr F X : Arr) (Xind : ℕ → ℕ) (nnz k : ℕ) : Option Arr :=
  calc_grad_pgd_chk_loop curr F X Xind k nnz (memset0 k out)

/-- The loop of `calc_grad_single` with the division checked. -/
def calc_grad_single_chk_loop (x F X : Arr) (Xind : ℕ → ℕ) (n : ℕ) :
    ℕ → Arr → Option Arr
  | 0, grad => some grad
  | i + 1, grad =>
    match calc_grad_single_chk_loop x F X Xind n i grad with
    | none => none
    | some g =>
      if cblas_ddot n x (shift F (Xind i * n)) = 0 then none
      else
        some (cblas_daxpy n (-(X i) / cblas_ddot n x (shift F (Xind i * n)))
          (shift F (Xind i * n)) g)

/-- Checked `calc_grad_single`. -/
def calc_grad_single_chk (x : Arr) (n : ℕ) (F Fsum X : Arr) (Xind : ℕ → ℕ)
    (nnz : ℕ) (l2_reg : ℚ) : Option Arr :=
  calc_grad_single_chk_loop x F X Xind n nnz
    (cblas_daxpy n (2 * (n : ℚ) * l2_reg) x (fun i => if i < n then Fsum i else 0))

/-- The loop of `calc_fun_single` with the `log` domain checked: `none` as
soon as some predicted value is not strictly positive. -/
def calc_fun_single_chk_loop (log : ℚ → ℚ) (x F X : Arr) (Xind : ℕ → ℕ) (n : ℕ) :
    ℕ → ℚ → Option ℚ
  | 0, out => some out
  | i + 1, out =>
    match calc_fun_single_chk_loop log x F X Xind n i out with
    | none => none
    | some o =>
      if 0 < cblas_ddot n x (shift F (Xind i * n)) then
        some (o - X i * log (cblas_ddot n x (shift F (Xind i * n))))
      else none

/-- Checked `calc_fun_single`. -/
def calc_fun_single_chk (log : ℚ → ℚ) (x : Arr) (n : ℕ) (F Fsum X : Arr)
    (Xind : ℕ → ℕ) (nnz : ℕ) (l2_reg : ℚ) : Option ℚ :=
  calc_fun_single_chk_loop log x F X Xind n nnz
    (cblas_ddot n Fsum x + l2_reg * cblas_ddot n x x)

/-! ### Spec-side B half-iteration for the CG branch -/

/-- Modelled from the spec (§4.6 and the transposition-symmetry
property of §8): the CG outer iteration in which the B half-iteration
uses the column-compressed view as its row view, i.e. values, pointer
and index arrays all drawn from `Xc`.  This is the role-swapped
A-update the spec describes; it differs from `run_iter` only in the
values array handed to the B half. -/
def run_iter_cg_spec (solver : Solver) (p : PoisParams) (s : PoisState) : PoisState :=
  let cnst_sumA := add_l1 p.l1_reg p.k (sum_by_cols (fun _ => 0) s.B p.dimB p.k p.ncores)
  let A1 := cg_iteration solver s.A s.B p.Xr p.Xr_indptr p.Xr_indices
    p.dimA p.k cnst_sumA p.npass p.l2_reg p.ncores
  let cnst_sumB := add_l1 p.l1_reg p.k (sum_by_cols (fun _ => 0) A1 p.dimA p.k p.ncores)
  let B1 := cg_iteration solver s.B A1 p.Xc p.Xc_indptr p.Xc_indices
    p.dimB p.k cnst_sumB p.npass p.l2_reg p.ncores
  ⟨A1, B1, s.step_size⟩

/-! ### Concrete data for witnesses and counterexamples -/

/-- The 2×2 count matrix `X = [[1,2],[3,4]]` in row-compressed order:
values `(1,2,3,4)`. -/
def XrEx : Arr := fun i => if i = 0 then 1 else if i = 1 then 2 else if i = 2 then 3 else 4

/-- The same matrix in column-compressed order: values `(1,3,2,4)`. -/
def XcEx : Arr := fun i => if i = 0 then 1 else if i = 1 then 3 else if i = 2 then 2 else 4

/-- Pointer array `(0,2,4)`, shared by both views of the dense 2×2 `X`. -/
def indptrEx : ℕ → ℕ := fun i => if i = 0 then 0 else if i = 1 then 2 else 4

/-- Index array `(0,1,0,1)`, shared by both views of the dense 2×2 `X`. -/
def indicesEx : ℕ → ℕ := fun i => i % 2

/-- The all-ones flat matrix. -/
def onesArr : Arr := fun _ => 1

/-- A trivial instance of the abstract external minimizer: return the
starting vector unchanged. -/
def trivSolver : Solver := fun _F _Fsum _X _Xind _nnz _l2 _npass _k curr => curr

/-- A probing instance of the abstract external minimizer: return the
second stored value of the row's sparse data, which the real minimizer
reads through `calc_fun_single`/`calc_grad_single`. -/
def probeSolver : Solver := fun _F _Fsum X _Xind _nnz _l2 _npass _k _curr => fun _ => X 1

/-- PGD-branch parameters for the 2×2 example, `k = 1`, no
regularization, one pass. -/
def pExPGD : PoisParams :=
  ⟨XrEx, indptrEx, indicesEx, XcEx, indptrEx, indicesEx, 2, 2, 1, 0, 0, false, 1, 1⟩

/-- CG-branch parameters for the 2×2 example, `k = 1`, no
regularization, one pass. -/
def pExCG : PoisParams :=
  ⟨XrEx, indptrEx, indicesEx, XcEx, indptrEx, indicesEx, 2, 2, 1, 0, 0, true, 1, 1⟩

/-! ### Basic algebraic facts about the kernels -/

lemma cblas_ddot_eq_dot (n : ℕ) (x y : Arr) : cblas_ddot n x y = dotSpec n x y := by
  induction n with
  | zero => simp [cblas_ddot, dotSpec]
  | succ m ih => rw [cblas_ddot, ih, dotSpec, dotSpec, Finset.sum_range_succ]

lemma dotSpec_comm (n : ℕ) (x y : Arr) : dotSpec n x y = dotSpec n y x := by
  unfold dotSpec
  exact Finset.sum_congr rfl fun i _ => mul_comm _ _

lemma nonneg_eq_max (x : ℚ) : nonneg x = max x 0 := by
  unfold nonneg
  rcases le_total x 0 with h | h
  · rw [max_eq_right h]
    by_cases h0 : x ≥ 0
    · simp [h0, le_antisymm h h0]
    · simp [h0]
  · simp [max_eq_left h, h]

lemma nonneg_nonneg (x : ℚ) : 0 ≤ nonneg x := by
  unfold nonneg
  split
  · assumption
  · exact le_refl 0

lemma sum_by_cols_loop_eq (M : Arr) (ncol nrow : ℕ) (out : Arr) (col : ℕ) (h : col < ncol) :
    sum_by_cols_loop M ncol nrow out col
      = out col + ∑ r ∈ Finset.range nrow, M (r * ncol + col) := by
  induction nrow with
  | zero => simp [sum_by_cols_loop]
  | succ m ih =>
    rw [sum_by_cols_loop, addRowTo]
    simp only [h, if_true, ih, Finset.sum_range_succ]
    ring

lemma sum_by_cols_eq (out M : Arr) (nrow ncol ncores col : ℕ) (h : col < ncol) :
    sum_by_cols out M nrow ncol ncores col = colsum M nrow ncol col := by
  unfold sum_by_cols colsum
  rw [sum_by_cols_loop_eq M ncol nrow _ col h]
  simp [memset0, h]

lemma add_l1_eq (l1_reg : ℚ) (k : ℕ) (v : Arr) (hl1 : 0 ≤ l1_reg) (t : ℕ) (ht : t < k) :
    add_l1 l1_reg k v t = v t + l1_reg := by
  unfold add_l1
  by_cases h : l1_reg > 0
  · simp [h, ht]
  · have h0 : l1_reg = 0 := le_antisymm (not_lt.mp h) hl1
    simp [h, h0]

/-! ### Claims C6 and C9 -/

/-- C6: calling `run_poismf` with `numiter = 0` leaves both factor
matrices (and the step size) bit-identical to their input values; no
row update or scaling is performed. -/
theorem run_poismf_numiter_zero_noop (solver : Solver) (p : PoisParams)
    (A B : Arr) (step_size : ℚ) :
    run_poismf solver p A B step_size 0 = ⟨A, B, step_size⟩ := rfl

/-- C9: `sum_by_cols` sets every output entry `col < ncol` to the sum
of column `col` over all `nrow` rows of the dense row-major matrix
`M`; the output is zeroed before accumulation, so the result does not
depend on the prior contents of `out`. -/
theorem sum_by_cols_correct (out M : Arr) (nrow ncol ncores col : ℕ) (h : col < ncol) :
    sum_by_cols out M nrow ncol ncores col
      = ∑ r ∈ Finset.range nrow, M (r * ncol + col) := by
  rw [sum_by_cols_eq out M nrow ncol ncores col h]
  rfl

/-- Witness for C9 at `M = [[3], [4]]` (2 × 1), out buffer previously
holding 7: the first column sums to 7 regardless of the buffer. -/
theorem sum_by_cols_correct_witness :
    (0 : ℕ) < 1
    ∧ sum_by_cols (fun _ => 7) (fun i => if i = 0 then 3 else 4) 2 1 1 0
        = ∑ r ∈ Finset.range 2, (fun i => if i = 0 then (3 : ℚ) else 4) (r * 1 + 0) :=
  ⟨by decide, sum_by_cols_correct (fun _ => 7) (fun i => if i = 0 then 3 else 4) 2 1 1 0 (by decide)⟩

/-! ### PGD gradient and pass: closed forms -/

lemma calc_grad_pgd_loop_eq (curr F X : Arr) (Xind : ℕ → ℕ) (k nnz : ℕ) (out : Arr)
    (i : ℕ) (hi : i < k) :
    calc_grad_pgd_loop curr F X Xind k nnz out i
      = out i + ∑ j ∈ Finset.range nnz, (X j / predSpec curr F Xind k j) * F (Xind j * k + i) := by
  induction nnz with
  | zero => simp [calc_grad_pgd_loop]
  | succ m ih =>
    rw [calc_grad_pgd_loop, cblas_daxpy]
    simp only [hi, if_true, ih, Finset.sum_range_succ]
    rw [cblas_ddot_eq_dot, dotSpec_comm]
    show out i + _ + X m / predSpec curr F Xind k m * shift F (Xind m * k) i = _
    rw [shift]
    ring

lemma calc_grad_pgd_eq (out curr F X : Arr) (Xind : ℕ → ℕ) (nnz k : ℕ)
    (i : ℕ) (hi : i < k) :
    calc_grad_pgd out curr F X Xind nnz k i = gradSpec curr F X Xind nnz k i := by
  rw [calc_grad_pgd, calc_grad_pgd_loop_eq curr F X Xind k nnz _ i hi, memset0, gradSpec]
  simp [hi]

lemma pgd_pass_eq_spec (buf F X : Arr) (Xind : ℕ → ℕ) (nnz k : ℕ)
    (cnst_div : ℚ) (cnst_sum : Arr) (step_size l1_reg l2_reg : ℚ) (colsumF : Arr)
    (hcs : ∀ t, t < k → cnst_sum t = -(step_size * (colsumF t + l1_reg)))
    (hcd : cnst_div = 1 / (1 + 2 * l2_reg * step_size)) :
    pgd_pass buf F X Xind nnz k cnst_div cnst_sum step_size
      = pgd_pass_spec F X Xind nnz k colsumF l1_reg l2_reg step_size := by
  funext curr i
  by_cases hi : i < k
  · simp only [pgd_pass, pgd_pass_spec, cblas_daxpy, cblas_dscal, hi, if_true,
      nonneg_eq_max, one_mul]
    rw [calc_grad_pgd_eq buf curr F X Xind nnz k i hi, hcs i hi, hcd]
  · simp only [pgd_pass, pgd_pass_spec, cblas_daxpy, cblas_dscal, hi, if_false]

lemma pgd_iteration_row_eq (buf A F Xr : Arr) (indptr indices : ℕ → ℕ)
    (dimA k : ℕ) (cnst_div : ℚ) (cnst_sum : Arr) (step_size l1_reg l2_reg : ℚ)
    (colsumF : Arr) (npass ncores : ℕ) (ia i : ℕ) (hia : ia < dimA) (hi : i < k)
    (hcs : ∀ t, t < k → cnst_sum t = -(step_size * (colsumF t + l1_reg)))
    (hcd : cnst_div = 1 / (1 + 2 * l2_reg * step_size)) :
    pgd_iteration buf A F Xr indptr indices dimA k cnst_div cnst_sum step_size npass ncores
        (ia * k + i)
      = Nat.iterate
          (pgd_pass_spec F (shift Xr (indptr ia)) (shiftIdx indices (indptr ia))
            (indptr (ia + 1) - indptr ia) k colsumF l1_reg l2_reg step_size)
          npass (row A ia k) i := by
  have hj : ia * k + i < dimA * k := by
    calc ia * k + i < ia * k + k := by omega
    _ = (ia + 1) * k := by ring
    _ ≤ dimA * k := Nat.mul_le_mul_right k (by omega)
  have hdiv : (ia * k + i) / k = ia := by
    rw [Nat.add_comm, Nat.add_mul_div_right i ia (by omega : 0 < k), Nat.div_eq_of_lt hi,
      Nat.zero_add]
  have hmod : (ia * k + i) % k = i := by
    rw [Nat.add_comm, Nat.add_mul_mod_self_right, Nat.mod_eq_of_lt hi]
  rw [pgd_iteration]
  simp only [hj, if_true, hdiv, hmod]
  rw [pgd_pass_eq_spec buf F (shift Xr (indptr ia)) (shiftIdx indices (indptr ia))
    (indptr (ia + 1) - indptr ia) k cnst_div cnst_sum step_size l1_reg l2_reg colsumF hcs hcd]

/-! ### Claim C4 -/

/-- C4: in the PGD branch, each row of the matrix being updated
undergoes exactly `npass` passes, each of which computes the
likelihood gradient, takes the ascent step `step_size·grad`, adds
`cnst_sum = -step_size·(colsum F + l1_reg)`, rescales by
`cnst_div = 1/(1 + 2·l2_reg·step_size)`, and clips entrywise to
`max(entry, 0)`; stated here for the half-iteration updating A
against the fixed matrix `B` inside one outer iteration. -/
theorem pgd_branch_row_update (solver : Solver) (p : PoisParams) (s : PoisState)
    (ia i : ℕ) (hcg : p.use_cg = false) (hl1 : 0 ≤ p.l1_reg)
    (hia : ia < p.dimA) (hi : i < p.k) :
    (run_iter solver p s).A (ia * p.k + i)
      = Nat.iterate
          (pgd_pass_spec s.B (shift p.Xr (p.Xr_indptr ia))
            (shiftIdx p.Xr_indices (p.Xr_indptr ia))
            (p.Xr_indptr (ia + 1) - p.Xr_indptr ia) p.k
            (colsum s.B p.dimB p.k) p.l1_reg p.l2_reg s.step_size)
          p.npass (row s.A ia p.k) i := by
  have hA : (run_iter solver p s).A
      = pgd_iteration (fun _ => 0) s.A s.B p.Xr p.Xr_indptr p.Xr_indices p.dimA p.k
          (1 / (1 + 2 * p.l2_reg * s.step_size))
          (cblas_dscal p.k (-s.step_size)
            (add_l1 p.l1_reg p.k (sum_by_cols (fun _ => 0) s.B p.dimB p.k p.ncores)))
          s.step_size p.npass p.ncores := by
    simp only [run_iter, hcg, Bool.false_eq_true, if_false]
  rw [hA]
  refine pgd_iteration_row_eq _ _ _ _ _ _ _ _ _ _ _ _ _ _ _ _ _ _ hia hi ?_ rfl
  intro t ht
  rw [cblas_dscal]
  simp only [ht, if_true]
  rw [add_l1_eq p.l1_reg p.k _ hl1 t ht,
    sum_by_cols_eq (fun _ => 0) s.B p.dimB p.k p.ncores t ht]
  ring

/-- Witness for C4 on the 2×2 example with `k = 1`, `npass = 1`,
step size `1/10`, starting from all-ones factors. -/
theorem pgd_branch_row_update_witness :
    pExPGD.use_cg = false ∧ (0 : ℚ) ≤ pExPGD.l1_reg
    ∧ (0 : ℕ) < pExPGD.dimA ∧ (0 : ℕ) < pExPGD.k
    ∧ (run_iter trivSolver pExPGD ⟨onesArr, onesArr, 1 / 10⟩).A (0 * pExPGD.k + 0)
        = Nat.iterate
            (pgd_pass_spec onesArr (shift XrEx (indptrEx 0)) (shiftIdx indicesEx (indptrEx 0))
              (indptrEx (0 + 1) - indptrEx 0) pExPGD.k (colsum onesArr pExPGD.dimB pExPGD.k)
              pExPGD.l1_reg pExPGD.l2_reg (1 / 10))
            pExPGD.npass (row onesArr 0 pExPGD.k) 0 :=
  ⟨rfl, by decide, by decide, by decide,
    pgd_branch_row_update trivSolver pExPGD ⟨onesArr, onesArr, 1 / 10⟩ 0 0 rfl
      (by decide) (by decide) (by decide)⟩

/-! ### Nonnegativity lemmas and claim C3 -/

lemma pgd_iteration_nonneg {buf A F Xr : Arr} {indptr indices : ℕ → ℕ}
    {dimA k : ℕ} {cnst_div : ℚ} {cnst_sum : Arr} {step_size : ℚ} {npass ncores : ℕ}
    (hA : ∀ j, j < dimA * k → 0 ≤ A j) :
    ∀ j, j < dimA * k →
      0 ≤ pgd_iteration buf A F Xr indptr indices dimA k cnst_div cnst_sum
            step_size npass ncores j := by
  intro j hj
  have hk : 0 < k := by
    rcases Nat.eq_zero_or_pos k with h0 | h0
    · subst h0; simp at hj
    · exact h0
  simp only [pgd_iteration, hj, if_true]
  cases npass with
  | zero =>
    show 0 ≤ row A (j / k) k (j % k)
    rw [row, shift]
    have hrec : j / k * k + j % k = j := by
      rw [Nat.mul_comm]
      exact Nat.div_add_mod j k
    rw [hrec]
    exact hA j hj
  | succ m =>
    rw [Function.iterate_succ_apply']
    have hm : j % k < k := Nat.mod_lt j hk
    simp only [pgd_pass, hm, if_true]
    exact nonneg_nonneg _

lemma cg_iteration_nonneg {solver : Solver} {A F Xvals : Arr} {indptr indices : ℕ → ℕ}
    {dimA k : ℕ} {Fsum : Arr} {npass : ℕ} {l2_reg : ℚ} {ncores : ℕ} :
    ∀ j, j < dimA * k →
      0 ≤ cg_iteration solver A F Xvals indptr indices dimA k Fsum npass l2_reg ncores j := by
  intro j hj
  simp only [cg_iteration, hj, if_true]
  exact nonneg_nonneg _

lemma run_iter_nonneg (solver : Solver) (p : PoisParams) (s : PoisState)
    (hA : ∀ j, j < p.dimA * p.k → 0 ≤ s.A j)
    (hB : ∀ j, j < p.dimB * p.k → 0 ≤ s.B j) :
    (∀ j, j < p.dimA * p.k → 0 ≤ (run_iter solver p s).A j)
    ∧ (∀ j, j < p.dimB * p.k → 0 ≤ (run_iter solver p s).B j) := by
  cases hcg : p.use_cg with
  | false =>
    simp only [run_iter, hcg, Bool.false_eq_true, if_false]
    exact ⟨pgd_iteration_nonneg hA, pgd_iteration_nonneg hB⟩
  | true =>
    simp only [run_iter, hcg, if_true]
    exact ⟨cg_iteration_nonneg, cg_iteration_nonneg⟩

/-- C3: for every run of `run_poismf` starting from entrywise
nonnegative factors, after every outer iteration every entry of A and
of B is nonnegative — each PGD pass and each CG row solve ends by
clipping each entry to `max(entry, 0)`. -/
theorem nonneg_invariant (solver : Solver) (p : PoisParams) (A B : Arr)
    (step_size : ℚ) (n : ℕ)
    (hA : ∀ j, j < p.dimA * p.k → 0 ≤ A j)
    (hB : ∀ j, j < p.dimB * p.k → 0 ≤ B j) :
    (∀ j, j < p.dimA * p.k → 0 ≤ (run_poismf solver p A B step_size n).A j)
    ∧ (∀ j, j < p.dimB * p.k → 0 ≤ (run_poismf solver p A B step_size n).B j) := by
  induction n with
  | zero => exact ⟨hA, hB⟩
  | succ m ih =>
    unfold run_poismf at ih ⊢
    rw [Function.iterate_succ_apply']
    exact run_iter_nonneg solver p _ ih.1 ih.2

/-- Witness for C3: two outer PGD iterations on the 2×2 example keep
all four factor entries nonnegative. -/
theorem nonneg_invariant_witness :
    (∀ j, j < pExPGD.dimA * pExPGD.k → 0 ≤ onesArr j)
    ∧ (∀ j, j < pExPGD.dimB * pExPGD.k → 0 ≤ onesArr j)
    ∧ ((∀ j, j < pExPGD.dimA * pExPGD.k →
          0 ≤ (run_poismf trivSolver pExPGD onesArr onesArr (1 / 10) 2).A j)
       ∧ (∀ j, j < pExPGD.dimB * pExPGD.k →
          0 ≤ (run_poismf trivSolver pExPGD onesArr onesArr (1 / 10) 2).B j)) :=
  ⟨by decide, by decide,
    nonneg_invariant trivSolver pExPGD onesArr onesArr (1 / 10) 2 (by decide) (by decide)⟩

/-! ### Claim C5: step-size decay in the PGD branch -/

lemma run_iter_step_pgd (solver : Solver) (p : PoisParams) (s : PoisState)
    (hcg : p.use_cg = false) :
    (run_iter solver p s).step_size = s.step_size * (1 / 2) := by
  simp only [run_iter, hcg, Bool.false_eq_true, if_false]

/-- C5: when `use_cg` is false, the step size entering outer iteration
`n` (0-based, used unchanged by both half-iterations of that
iteration) is `initial_step_size × (1/2)^n`: it is halved exactly once
per completed outer iteration, after the PGD update of B. -/
theorem pgd_step_decay (solver : Solver) (p : PoisParams) (A B : Arr)
    (step_size : ℚ) (hcg : p.use_cg = false) (n : ℕ) :
    (run_poismf solver p A B step_size n).step_size = step_size * (1 / 2) ^ n := by
  induction n with
  | zero => simp [run_poismf]
  | succ m ih =>
    unfold run_poismf at ih ⊢
    rw [Function.iterate_succ_apply', run_iter_step_pgd solver p _ hcg, ih]
    ring

/-- Witness for C5: after three outer PGD iterations the step size is
`1 × (1/2)³`. -/
theorem pgd_step_decay_witness :
    pExPGD.use_cg = false
    ∧ (run_poismf trivSolver pExPGD onesArr onesArr 1 3).step_size = 1 * (1 / 2) ^ 3 :=
  ⟨rfl, pgd_step_decay trivSolver pExPGD onesArr onesArr 1 rfl 3⟩

/-! ### Claim C10: CG outputs are independent of the step size -/

lemma run_iter_cg_AB (solver : Solver) (p : PoisParams) (hcg : p.use_cg = true)
    (s t : PoisState) (hA : s.A = t.A) (hB : s.B = t.B) :
    (run_iter solver p s).A = (run_iter solver p t).A
    ∧ (run_iter solver p s).B = (run_iter solver p t).B := by
  refine ⟨?_, ?_⟩ <;> simp only [run_iter, hcg, if_true, hA, hB]

/-- C10: when `use_cg` is true, the factor matrices produced by
`run_poismf` are identical for any two values of the `step_size`
argument — the CG branch never reads `cnst_div`, `neg_step_sz`, or the
decayed step. -/
theorem cg_outputs_independent_of_step_size (solver : Solver) (p : PoisParams)
    (A B : Arr) (step1 step2 : ℚ) (hcg : p.use_cg = true) (n : ℕ) :
    (run_poismf solver p A B step1 n).A = (run_poismf solver p A B step2 n).A
    ∧ (run_poismf solver p A B step1 n).B = (run_poismf solver p A B step2 n).B := by
  induction n with
  | zero => exact ⟨rfl, rfl⟩
  | succ m ih =>
    unfold run_poismf at ih ⊢
    rw [Function.iterate_succ_apply', Function.iterate_succ_apply']
    exact run_iter_cg_AB solver p hcg _ _ ih.1 ih.2

/-- Witness for C10: two CG runs with step sizes 1 and 2 on the 2×2
example produce identical factors. -/
theorem cg_outputs_independent_witness :
    pExCG.use_cg = true
    ∧ ((run_poismf probeSolver pExCG onesArr onesArr 1 2).A
          = (run_poismf probeSolver pExCG onesArr onesArr 2 2).A
       ∧ (run_poismf probeSolver pExCG onesArr onesArr 1 2).B
          = (run_poismf probeSolver pExCG onesArr onesArr 2 2).B) :=
  ⟨rfl, cg_outputs_independent_of_step_size probeSolver pExCG onesArr onesArr 1 2 rfl 2⟩

/-! ### Claim C7: allocation failure is a silent no-op -/

/-- C7: if allocation of `cnst_sum` or of any worker's scratch buffer
fails, `run_poismf` prints the diagnostic, frees both resources
(freeing a null pointer is a no-op), and returns with A and B exactly
as the caller provided them — no optimization step runs and no status
is returned, since the observable result carries no error code. -/
theorem alloc_failure_is_silent_noop (solver : Solver) (p : PoisParams)
    (cnst_sum_ok buffer_alloc_error : Bool) (A B : Arr) (step_size : ℚ) (numiter : ℕ)
    (h : buffer_alloc_error = true ∨ cnst_sum_ok = false) :
    run_poismf_alloc solver p cnst_sum_ok buffer_alloc_error A B step_size numiter
      = ⟨A, B, true, true, true⟩ := by
  rcases h with h | h
  · simp [run_poismf_alloc, h]
  · simp [run_poismf_alloc, h]

/-- Witness for C7: with both allocations failing, a 5-iteration run
leaves the all-ones factors untouched and reports the diagnostic. -/
theorem alloc_failure_witness :
    ((true : Bool) = true ∨ (true : Bool) = false)
    ∧ run_poismf_alloc trivSolver pExPGD true true onesArr onesArr 1 5
        = ⟨onesArr, onesArr, true, true, true⟩ :=
  ⟨Or.inl rfl,
    alloc_failure_is_silent_noop trivSolver pExPGD true true onesArr onesArr 1 5 (Or.inl rfl)⟩

/-! ### Claim C1: which arrays the CG B half-iteration reads -/

/-- C1, evaluated at the failing input: for the 2×2 matrix
`X = [[1,2],[3,4]]` (row-ordered values `(1,2,3,4)`, column-ordered
values `(1,3,2,4)`) with `k = 1` and a minimizer probe that returns
the second stored value of the row data it is handed, the CG B
half-iteration of the code — which passes `Xr` as the values array
together with `Xc_indptr`/`Xc_indices` — produces `B[0] = 2`, while
the role-swapped A-update reading the column-compressed values `Xc`
produces `B[0] = 3`.  The B-update is therefore not the A-update with
the roles and compressed views swapped on the CG branch. -/
theorem cg_b_update_reads_row_values :
    (run_iter probeSolver pExCG ⟨onesArr, onesArr, 1⟩).B 0 = 2
    ∧ (run_iter_cg_spec probeSolver pExCG ⟨onesArr, onesArr, 1⟩).B 0 = 3
    ∧ (run_iter probeSolver pExCG ⟨onesArr, onesArr, 1⟩).B 0
        ≠ (run_iter_cg_spec probeSolver pExCG ⟨onesArr, onesArr, 1⟩).B 0 := by
  refine ⟨?_, ?_, ?_⟩ <;> decide

/-! ### Closed forms for the CG kernels, and claim C2 -/

lemma calc_fun_single_loop_eq (log : ℚ → ℚ) (x F X : Arr) (Xind : ℕ → ℕ)
    (n nnz : ℕ) (out : ℚ) :
    calc_fun_single_loop log x F X Xind n nnz out
      = out - ∑ j ∈ Finset.range nnz, X j * log (cblas_ddot n x (shift F (Xind j * n))) := by
  induction nnz with
  | zero => simp [calc_fun_single_loop]
  | succ m ih =>
    rw [calc_fun_single_loop, ih, Finset.sum_range_succ]
    ring

lemma calc_grad_single_loop_eq (x F X : Arr) (Xind : ℕ → ℕ) (n nnz : ℕ)
    (g : Arr) (i : ℕ) (hi : i < n) :
    calc_grad_single_loop x F X Xind n nnz g i
      = g i - ∑ j ∈ Finset.range nnz,
          (X j / cblas_ddot n x (shift F (Xind j * n))) * F (Xind j * n + i) := by
  induction nnz with
  | zero => simp [calc_grad_single_loop]
  | succ m ih =>
    simp only [calc_grad_single_loop, cblas_daxpy, hi, if_true, ih,
      Finset.sum_range_succ, shift, neg_div]
    ring

lemma calc_grad_single_eq (x : Arr) (n : ℕ) (F Fsum X : Arr) (Xind : ℕ → ℕ)
    (nnz : ℕ) (l2_reg : ℚ) (i : ℕ) (hi : i < n) :
    calc_grad_single x n F Fsum X Xind nnz l2_reg i
      = calc_grad_single_spec x n F Fsum X Xind nnz l2_reg i := by
  rw [calc_grad_single, calc_grad_single_loop_eq x F X Xind n nnz _ i hi, cblas_daxpy]
  simp only [hi, if_true, calc_grad_single_spec, cblas_ddot_eq_dot]

/-- C2: the gradient produced by `calc_grad_single` is
`Fsum + 2·n·l2_reg·x − Σ_j (x_j/pred_j)·F[index_j]` — its L2 term
carries an extra factor of `n = k` relative to the true gradient
`2·l2_reg·x` of the L2 term `l2_reg·dot(x,x)` of the objective
produced by `calc_fun_single`; gradient and objective are asymmetric
whenever `l2_reg > 0`, `n > 1` and `x` is nonzero. -/
theorem grad_l2_term_carries_factor_k (log : ℚ → ℚ) (x : Arr) (n : ℕ)
    (F Fsum X : Arr) (Xind : ℕ → ℕ) (nnz : ℕ) (l2_reg : ℚ) (i : ℕ)
    (hl2 : 0 < l2_reg) (hn : 1 < n) (hi : i < n) (hx : x i ≠ 0) :
    (∀ t, t < n → calc_grad_single x n F Fsum X Xind nnz l2_reg t
        = calc_grad_single_spec x n F Fsum X Xind nnz l2_reg t)
    ∧ calc_fun_single log x n F Fsum X Xind nnz l2_reg
        = dotSpec n Fsum x + l2_reg * dotSpec n x x
          - ∑ j ∈ Finset.range nnz, X j * log (dotSpec n x (shift F (Xind j * n)))
    ∧ calc_grad_single x n F Fsum X Xind nnz l2_reg i
        ≠ true_objective_grad x n F Fsum X Xind nnz l2_reg i := by
  refine ⟨fun t ht => calc_grad_single_eq x n F Fsum X Xind nnz l2_reg t ht, ?_, ?_⟩
  · rw [calc_fun_single, calc_fun_single_loop_eq]
    simp only [cblas_ddot_eq_dot]
  · rw [calc_grad_single_eq x n F Fsum X Xind nnz l2_reg i hi]
    simp only [calc_grad_single_spec, true_objective_grad]
    intro h
    have h2 : 2 * (n : ℚ) * l2_reg * x i = 2 * l2_reg * x i := by linear_combination h
    have hc : (2 : ℚ) * l2_reg * x i ≠ 0 :=
      mul_ne_zero (mul_ne_zero two_ne_zero (ne_of_gt hl2)) hx
    have h3 : (n : ℚ) * (2 * l2_reg * x i) = 1 * (2 * l2_reg * x i) := by
      linear_combination h2
    have h4 : (n : ℚ) = 1 := mul_right_cancel₀ hc h3
    have h5 : (1 : ℚ) < (n : ℚ) := by exact_mod_cast hn
    linarith

/-- Witness for C2 at `n = 2`, `l2_reg = 1`, all-ones vectors and no
nonzeros. -/
theorem grad_l2_factor_witness :
    (0 : ℚ) < 1 ∧ (1 : ℕ) < 2 ∧ (0 : ℕ) < 2 ∧ onesArr 0 ≠ 0
    ∧ ((∀ t, t < 2 → calc_grad_single onesArr 2 onesArr onesArr onesArr (fun j => j) 0 1 t
          = calc_grad_single_spec onesArr 2 onesArr onesArr onesArr (fun j => j) 0 1 t)
       ∧ calc_fun_single (fun q => q) onesArr 2 onesArr onesArr onesArr (fun j => j) 0 1
          = dotSpec 2 onesArr onesArr + 1 * dotSpec 2 onesArr onesArr
            - ∑ j ∈ Finset.range 0,
                onesArr j * dotSpec 2 onesArr (shift onesArr (j * 2))
       ∧ calc_grad_single onesArr 2 onesArr onesArr onesArr (fun j => j) 0 1 0
          ≠ true_objective_grad onesArr 2 onesArr onesArr onesArr (fun j => j) 0 1 0) :=
  ⟨by decide, by decide, by decide, by decide,
    grad_l2_term_carries_factor_k (fun q => q) onesArr 2 onesArr onesArr onesArr
      (fun j => j) 0 1 0 (by decide) (by decide) (by decide) (by decide)⟩

/-! ### Claim C8: no guard on the predicted values -/

lemma calc_grad_pgd_chk_loop_sound (curr F X : Arr) (Xind : ℕ → ℕ) (k nnz : ℕ)
    (out : Arr) (h : ∀ j, j < nnz → 0 < predSpec curr F Xind k j) :
    calc_grad_pgd_chk_loop curr F X Xind k nnz out
      = some (calc_grad_pgd_loop curr F X Xind k nnz out) := by
  induction nnz with
  | zero => rfl
  | succ m ih =>
    have hp : ¬ (cblas_ddot k (shift F (Xind m * k)) curr = 0) := by
      rw [cblas_ddot_eq_dot, dotSpec_comm]
      exact ne_of_gt (h m (Nat.lt_succ_self m))
    simp only [calc_grad_pgd_chk_loop, ih (fun j hj => h j (Nat.lt_succ_of_lt hj)), hp,
      if_false, calc_grad_pgd_loop]

lemma calc_grad_single_chk_loop_sound (x F X : Arr) (Xind : ℕ → ℕ) (n nnz : ℕ)
    (g : Arr) (h : ∀ j, j < nnz → 0 < predSpec x F Xind n j) :
    calc_grad_single_chk_loop x F X Xind n nnz g
      = some (calc_grad_single_loop x F X Xind n nnz g) := by
  induction nnz with
  | zero => rfl
  | succ m ih =>
    have hp : ¬ (cblas_ddot n x (shift F (Xind m * n)) = 0) := by
      rw [cblas_ddot_eq_dot]
      exact ne_of_gt (h m (Nat.lt_succ_self m))
    simp only [calc_grad_single_chk_loop, ih (fun j hj => h j (Nat.lt_succ_of_lt hj)), hp,
      if_false, calc_grad_single_loop]

lemma calc_fun_single_chk_loop_sound (log : ℚ → ℚ) (x F X : Arr) (Xind : ℕ → ℕ)
    (n nnz : ℕ) (out : ℚ) (h : ∀ j, j < nnz → 0 < predSpec x F Xind n j) :
    calc_fun_single_chk_loop log x F X Xind n nnz out
      = some (calc_fun_single_loop log x F X Xind n nnz out) := by
  induction nnz with
  | zero => rfl
  | succ m ih =>
    have hp : 0 < cblas_ddot n x (shift F (Xind m * n)) := by
      rw [cblas_ddot_eq_dot]
      exact h m (Nat.lt_succ_self m)
    simp only [calc_fun_single_chk_loop, ih (fun j hj => h j (Nat.lt_succ_of_lt hj)), hp,
      if_true, calc_fun_single_loop]

/-- C8: the gradient/objective kernels evaluate the division
`x_j/pred_j` and `log(pred_j)` unconditionally — the checked variants
agree with the unchecked code exactly under the hypothesis that every
predicted value is strictly positive, the error branch is reachable as
soon as some predicted value is zero (no guard exists in the code),
and strict positivity is not independently enforced: the clip at the
end of a PGD pass can produce an entry exactly equal to 0. -/
theorem no_guard_on_predicted_values (log : ℚ → ℚ) (out curr F Fsum X : Arr)
    (Xind : ℕ → ℕ) (nnz k : ℕ) (l2_reg : ℚ)
    (h : ∀ j, j < nnz → 0 < predSpec curr F Xind k j) :
    calc_grad_pgd_chk out curr F X Xind nnz k
        = some (calc_grad_pgd out curr F X Xind nnz k)
    ∧ calc_grad_single_chk curr k F Fsum X Xind nnz l2_reg
        = some (calc_grad_single curr k F Fsum X Xind nnz l2_reg)
    ∧ calc_fun_single_chk log curr k F Fsum X Xind nnz l2_reg
        = some (calc_fun_single log curr k F Fsum X Xind nnz l2_reg)
    ∧ calc_grad_pgd_chk (fun _ => 0) (fun _ => 0) onesArr onesArr (fun _ => 0) 1 1 = none
    ∧ calc_fun_single_chk log (fun _ => 0) 1 onesArr onesArr onesArr (fun _ => 0) 1 0 = none
    ∧ pgd_pass (fun _ => 0) onesArr onesArr (fun _ => 0) 0 1 1 (fun _ => -2) 1 onesArr 0
        = 0 := by
  refine ⟨?_, ?_, ?_, ?_, ?_, ?_⟩
  · rw [calc_grad_pgd_chk, calc_grad_pgd]
    exact calc_grad_pgd_chk_loop_sound curr F X Xind k nnz _ h
  · rw [calc_grad_single_chk, calc_grad_single]
    exact calc_grad_single_chk_loop_sound curr F X Xind k nnz _ h
  · rw [calc_fun_single_chk, calc_fun_single]
    exact calc_fun_single_chk_loop_sound log curr F X Xind k nnz _ h
  · norm_num [calc_grad_pgd_chk, calc_grad_pgd_chk_loop, cblas_ddot, shift, onesArr, memset0]
  · norm_num [calc_fun_single_chk, calc_fun_single_chk_loop, cblas_ddot, shift, onesArr]
  · norm_num [pgd_pass, calc_grad_pgd, calc_grad_pgd_loop, memset0, cblas_daxpy,
      cblas_dscal, nonneg, onesArr]

/-- Witness for C8 at `k = 1`, all-ones data (every predicted value
equals 1 > 0). -/
theorem no_guard_witness :
    (∀ j, j < 1 → 0 < predSpec onesArr onesArr (fun _ => 0) 1 j)
    ∧ (calc_grad_pgd_chk (fun _ => 0) onesArr onesArr onesArr (fun _ => 0) 1 1
          = some (calc_grad_pgd (fun _ => 0) onesArr onesArr onesArr (fun _ => 0) 1 1)
       ∧ calc_grad_single_chk onesArr 1 onesArr onesArr onesArr (fun _ => 0) 1 0
          = some (calc_grad_single onesArr 1 onesArr onesArr onesArr (fun _ => 0) 1 0)
       ∧ calc_fun_single_chk (fun q => q) onesArr 1 onesArr onesArr onesArr (fun _ => 0) 1 0
          = some (calc_fun_single (fun q => q) onesArr 1 onesArr onesArr onesArr (fun _ => 0) 1 0)
       ∧ calc_grad_pgd_chk (fun _ => 0) (fun _ => 0) onesArr onesArr (fun _ => 0) 1 1 = none
       ∧ calc_fun_single_chk (fun q => q) (fun _ => 0) 1 onesArr onesArr onesArr (fun _ => 0) 1 0
          = none
       ∧ pgd_pass (fun _ => 0) onesArr onesArr (fun _ => 0) 0 1 1 (fun _ => -2) 1 onesArr 0
          = 0) :=
  ⟨by intro j hj; norm_num [predSpec, dotSpec, onesArr, shift],
    no_guard_on_predicted_values (fun q => q) (fun _ => 0) onesArr onesArr onesArr onesArr
      (fun _ => 0) 1 1 0 (by intro j hj; norm_num [predSpec, dotSpec, onesArr, shift])⟩

end Poismf
